import Mathlib

/-!
Shallow embedding of the MQTT packet reader of src/mqtt3/src/read.rs.

Byte sources: every buffer in the claims is a finite in-memory reader (a
Cursor over a byte vector), threaded here as a `List Nat` of byte values;
a read consumes bytes from the front and returns the rest of the list.
`Read::take(n)` - the bounded view that read_packet hands to each body
decoder - behaves over a finite buffer exactly like the plain list
`s.take n`: reads hit end-of-input when either the limit or the
underlying buffer is exhausted, and the bytes consumed from the
underlying buffer are exactly the bytes consumed from the view, so after
a body decoder returns, the underlying buffer has advanced by the number
of view bytes the decoder consumed.  `Read::read_to_string` and
`read_to_end` read up to end-of-input and do NOT fail on a short read;
`read_to_string` fails iff the bytes read are not valid UTF-8 (std
semantics).  byteorder's `read_u8` / `read_u16::<BigEndian>` read exactly
1 / 2 bytes and fail with an unexpected-EOF I/O error when fewer remain.
Rust `usize` arithmetic is 64-bit here; the subtractions that can
overflow are modelled with release-mode wrapping (`wsub`).  A panic
(`Result::unwrap` on an error value) is modelled as the distinct outcome
`Fail.panicked`.

Declarations whose doc comment starts with "Modelled from the spec:"
embed items of this crate that are not under src/ (the error enum of
error.rs, the Header / QoS / Protocol / PacketType items and the
MULTIPLIER constant of the crate root); they follow the specification
text, which documents each of them.
-/

namespace Mq

/-- Modelled from the spec: the error taxonomy of spec section 7
(error.rs is not in src/).  `IoError` is the "underlying source exhausted
before a declared field could be fully read" failure; `StringDecode` is
the distinct "field bytes are not valid UTF-8" failure. -/
inductive Error where
  | MalformedRemainingLength
  | PayloadRequired
  | IncorrectPacketFormat
  | UnsupportedPacketType
  | InvalidQoS
  | InvalidProtocol
  | IoError
  | StringDecode
deriving DecidableEq

/-- How a decoder call can go wrong: it returns an `Error`, or the Rust
code panics (e.g. `unwrap` on an `Err`). -/
inductive Fail where
  | err : Error → Fail
  | panicked : Fail
deriving DecidableEq

/-- Result type of every reader function: value or failure. -/
abbrev R (α : Type) := Except Fail α

/-- Shorthand for returning an `Error` (Rust `Err(...)` via `try!`). -/
def rerr {α : Type} (e : Error) : R α := .error (.err e)

instance instDecEqExcept {ε α : Type} [DecidableEq ε] [DecidableEq α] :
    DecidableEq (Except ε α) := fun x y =>
  match x, y with
  | .ok a, .ok b =>
      if h : a = b then isTrue (by rw [h]) else isFalse (fun hh => h (Except.ok.inj hh))
  | .error a, .error b =>
      if h : a = b then isTrue (by rw [h]) else isFalse (fun hh => h (Except.error.inj hh))
  | .ok _, .error _ => isFalse (fun hh => Except.noConfusion hh)
  | .error _, .ok _ => isFalse (fun hh => Except.noConfusion hh)

/-- Byte values of an ASCII string (used for the literal test vectors;
for ASCII text these are exactly the UTF-8 bytes Rust compares). -/
def ascii (s : String) : List Nat := s.data.map Char.toNat

/-- Continuation-byte ranges a UTF-8 leading byte demands, per the
RFC 3629 table that Rust's str validation (hence `read_to_string`)
enforces; `none` marks an invalid leading byte. -/
def utf8Need (b : Nat) : Option (List (Nat × Nat)) :=
  if b ≤ 0x7F then some []
  else if 0xC2 ≤ b && b ≤ 0xDF then some [(0x80, 0xBF)]
  else if b == 0xE0 then some [(0xA0, 0xBF), (0x80, 0xBF)]
  else if 0xE1 ≤ b && b ≤ 0xEC then some [(0x80, 0xBF), (0x80, 0xBF)]
  else if b == 0xED then some [(0x80, 0x9F), (0x80, 0xBF)]
  else if 0xEE ≤ b && b ≤ 0xEF then some [(0x80, 0xBF), (0x80, 0xBF)]
  else if b == 0xF0 then some [(0x90, 0xBF), (0x80, 0xBF), (0x80, 0xBF)]
  else if 0xF1 ≤ b && b ≤ 0xF3 then some [(0x80, 0xBF), (0x80, 0xBF), (0x80, 0xBF)]
  else if b == 0xF4 then some [(0x80, 0x8F), (0x80, 0xBF), (0x80, 0xBF)]
  else none

/-- UTF-8 validation automaton: the first argument is the list of ranges
the pending multi-byte character still demands of the next bytes. -/
def utf8Run : List (Nat × Nat) → List Nat → Bool
  | [], [] => true
  | _ :: _, [] => false
  | [], b :: r =>
    match utf8Need b with
    | none => false
    | some es => utf8Run es r
  | (lo, hi) :: es, c :: r => if lo ≤ c && c ≤ hi then utf8Run es r else false

/-- UTF-8 validity of a byte sequence (RFC 3629, as enforced by Rust's
`read_to_string`). -/
def utf8Valid (s : List Nat) : Bool := utf8Run [] s

/-- Modelled from the spec: the QoS enumeration of the crate root (spec
glossary: "at most once", "at least once", "exactly once"). -/
inductive QoS where
  | AtMostOnce
  | AtLeastOnce
  | ExactlyOnce
deriving DecidableEq

/-- Modelled from the spec: `QoS::from_u8`; values 0, 1, 2 decode, any
other value is the invalid-QoS failure (spec sections 3 and 7). -/
def QoS.from_u8 (n : Nat) : R QoS :=
  match n with
  | 0 => .ok .AtMostOnce
  | 1 => .ok .AtLeastOnce
  | 2 => .ok .ExactlyOnce
  | _ => rerr .InvalidQoS

/-- Modelled from the spec: the protocol (name, level) pair of the crate
root; the repository's own test expects the values `Protocol::MQTT(4)`
and `Protocol::MQIsdp(3)`. -/
inductive Protocol where
  | MQIsdp : Nat → Protocol
  | MQTT : Nat → Protocol
deriving DecidableEq

/-- Modelled from the spec: `Protocol::new` accepts exactly the pairs
("MQIsdp", 3) and ("MQTT", 4); any other pair is the invalid-protocol
failure (spec sections 3, 6 and 7). -/
def Protocol.new (name : List Nat) (level : Nat) : R Protocol :=
  if name == ascii "MQIsdp" && level == 3 then .ok (.MQIsdp 3)
  else if name == ascii "MQTT" && level == 4 then .ok (.MQTT 4)
  else rerr .InvalidProtocol

/-- Modelled from the spec: the packet-type enumeration, one variant per
4-bit type code 1..14 (spec section 4.2; code 15 reserved, code 0 unused). -/
inductive PacketType where
  | Connect
  | Connack
  | Publish
  | Puback
  | Pubrec
  | Pubrel
  | Pubcomp
  | Subscribe
  | Suback
  | Unsubscribe
  | Unsuback
  | Pingreq
  | Pingresp
  | Disconnect
deriving DecidableEq

/-- Modelled from the spec: the high nibble of the fixed-header byte maps
to the packet type (spec section 4.2); nibbles 0 and 15 have no variant
and are rejected. -/
def PacketType.from_hd (hd : Nat) : R PacketType :=
  match hd >>> 4 with
  | 1 => .ok .Connect
  | 2 => .ok .Connack
  | 3 => .ok .Publish
  | 4 => .ok .Puback
  | 5 => .ok .Pubrec
  | 6 => .ok .Pubrel
  | 7 => .ok .Pubcomp
  | 8 => .ok .Subscribe
  | 9 => .ok .Suback
  | 10 => .ok .Unsubscribe
  | 11 => .ok .Unsuback
  | 12 => .ok .Pingreq
  | 13 => .ok .Pingresp
  | 14 => .ok .Disconnect
  | _ => rerr .UnsupportedPacketType

/-- Modelled from the spec: the fixed header value - the raw first byte,
its decoded packet type, and the decoded remaining length. -/
structure Header where
  hd : Nat
  typ : PacketType
  len : Nat
deriving DecidableEq

/-- Modelled from the spec: `Header::new` validates the type nibble and
stores the raw byte and remaining length. -/
def Header.new (hd len : Nat) : R Header :=
  match PacketType.from_hd hd with
  | .error e => .error e
  | .ok t => .ok { hd := hd, typ := t, len := len }

/-- Modelled from the spec: dup is bit 3 of the fixed-header byte. -/
def Header.dup (h : Header) : Bool := h.hd &&& 0b1000 != 0

/-- Modelled from the spec: QoS is bits 2-1 of the fixed-header byte and
"must fail immediately with an invalid-QoS error when queried" on the
bit pattern 11 (spec section 4.2). -/
def Header.qos (h : Header) : R QoS := QoS.from_u8 ((h.hd >>> 1) &&& 0b11)

/-- Modelled from the spec: retain is bit 0 of the fixed-header byte. -/
def Header.retain (h : Header) : Bool := h.hd &&& 0b1 != 0

/-- Last-will value carried by a CONNECT packet (mqtt.rs `LastWill`). -/
structure LastWill where
  topic : List Nat
  message : List Nat
  qos : QoS
  retain : Bool
deriving DecidableEq

/-- Decoded CONNECT packet (mqtt.rs `Connect`). -/
structure Connect where
  protocol : Protocol
  keep_alive : Nat
  client_id : List Nat
  clean_session : Bool
  last_will : Option LastWill
  username : Option (List Nat)
  password : Option (List Nat)
deriving DecidableEq

/-- Decoded PUBLISH packet (mqtt.rs `Publish`); `pid` is the optional
packet identifier. -/
structure Publish where
  dup : Bool
  qos : QoS
  retain : Bool
  topic_name : List Nat
  pid : Option Nat
  payload : List Nat
deriving DecidableEq

/-- Decoded SUBSCRIBE packet (mqtt.rs `Subscribe`). -/
structure Subscribe where
  pid : Nat
  topics : List (List Nat × QoS)
deriving DecidableEq

/-- Decoded UNSUBSCRIBE packet (mqtt.rs `Unsubscribe`). -/
structure Unsubscribe where
  pid : Nat
  topics : List (List Nat)
deriving DecidableEq

/-- Decoded packet (mqtt.rs `Packet`), restricted to the variants
read.rs can actually produce. -/
inductive Packet where
  | Connect : Mq.Connect → Packet
  | Publish : Mq.Publish → Packet
  | Subscribe : Mq.Subscribe → Packet
  | Unsubscribe : Mq.Unsubscribe → Packet
  | Pingreq
  | Pingresp
deriving DecidableEq

/-- byteorder `read_u8`: one byte, or unexpected EOF. -/
def readU8 : List Nat → R (Nat × List Nat)
  | [] => rerr .IoError
  | b :: r => .ok (b, r)

/-- byteorder `read_u16::<BigEndian>`: exactly two bytes, or unexpected EOF. -/
def readU16 : List Nat → R (Nat × List Nat)
  | a :: b :: r => .ok (a * 256 + b, r)
  | _ => rerr .IoError

/-- Rust usize is 64 bits on the targets at hand. -/
def USIZE : Nat := 2 ^ 64

/-- Release-mode wrapping usize subtraction. -/
def wsub (a b : Nat) : Nat := (a + (USIZE - b % USIZE)) % USIZE

/-- Modelled from the spec: the MULTIPLIER cap of the crate root (not in
src/).  The spec fixes the behaviour: [0xFF,0xFF,0xFF,0x7F] decodes to
268435455 and only a 5th continuation byte is malformed; with read.rs's
loop (the check runs after `mult *= 0x80`) that forces the value 0x80^4. -/
def MULTIPLIER : Nat := 0x80 * 0x80 * 0x80 * 0x80

/-- Loop body of `read_remaining_length` (read.rs lines 180-188); one
recursive step per byte read. -/
def readRemLenAux : List Nat → Nat → Nat → R (Nat × List Nat)
  | [], _, _ => rerr .IoError
  | b :: r, mult, len =>
    let len2 := len + (b &&& 0x7F) * mult
    let mult2 := mult * 0x80
    if MULTIPLIER < mult2 then rerr .MalformedRemainingLength
    else if b &&& 0x80 == 0 then .ok (len2, r)
    else readRemLenAux r mult2 len2

/-- read.rs `read_remaining_length` (lines 174-191). -/
def read_remaining_length (s : List Nat) : R (Nat × List Nat) :=
  readRemLenAux s 1 0

/-- read.rs `read_mqtt_string` (lines 167-172): a 2-byte big-endian
length prefix, then `take(len).read_to_string`, which reads
min(len, available) bytes and fails only when they are not valid UTF-8. -/
def read_mqtt_string (s : List Nat) : R (List Nat × List Nat) :=
  match readU16 s with
  | .error e => .error e
  | .ok (len, r) =>
    if utf8Valid (r.take len) then .ok (r.take len, r.drop len)
    else rerr .StringDecode

/-- read.rs `read_connect` (lines 46-96). -/
def read_connect (s : List Nat) : R (Connect × List Nat) := do
  let (protocol_name, s) ← read_mqtt_string s
  let (protocol_level, s) ← readU8 s
  let protocol ← Protocol.new protocol_name protocol_level
  let (connect_flags, s) ← readU8 s
  let (keep_alive, s) ← readU16 s
  let (client_id, s) ← read_mqtt_string s
  let (last_will, s) ←
    if connect_flags &&& 0b100 == 0 then
      if connect_flags &&& 0b00111000 != 0 then
        (rerr .IncorrectPacketFormat : R (Option LastWill × List Nat))
      else pure ((none : Option LastWill), s)
    else do
      let (will_topic, s) ← read_mqtt_string s
      let (will_message, s) ← read_mqtt_string s
      let will_qod ← QoS.from_u8 ((connect_flags &&& 0b11000) >>> 3)
      pure (some { topic := will_topic, message := will_message, qos := will_qod,
                   retain := connect_flags &&& 0b00100000 != 0 }, s)
  let (username, s) ←
    if connect_flags &&& 0b10000000 == 0 then
      pure ((none : Option (List Nat)), s)
    else do
      let (u, s) ← read_mqtt_string s
      pure (some u, s)
  let (password, s) ←
    if connect_flags &&& 0b01000000 == 0 then
      pure ((none : Option (List Nat)), s)
    else do
      let (p, s) ← read_mqtt_string s
      pure (some p, s)
  pure ({ protocol := protocol, keep_alive := keep_alive, client_id := client_id,
          clean_session := connect_flags &&& 0b10 != 0,
          last_will := last_will, username := username, password := password }, s)

/-- read.rs `read_publish` (lines 102-124).  `header.qos().unwrap()` on
line 105 panics when the header's QoS bits are the invalid pattern 11;
`payload_len` on line 110 is only a capacity hint with no observable
effect; `read_to_end` takes every remaining byte of the bounded view. -/
def read_publish (header : Header) (s : List Nat) : R (Publish × List Nat) := do
  let (topic_name, s) ← read_mqtt_string s
  match Header.qos header with
  | .error _ => .error .panicked
  | .ok q =>
    let (pid, s) ←
      if q != QoS.AtMostOnce then do
        let (p, s) ← readU16 s
        pure ((some p : Option Nat), s)
      else pure ((none : Option Nat), s)
    let _payload_len := wsub (wsub header.len topic_name.length) 2
    pure ({ dup := header.dup, qos := q, retain := header.retain,
            topic_name := topic_name, pid := pid, payload := s }, ([] : List Nat))

/-- Loop of read.rs `read_subscribe` (lines 131-136): while the counter
is nonzero, read a topic-filter string and a requested-QoS byte, then
subtract `topic_filter.len() + 3` from the counter with release-mode
wrapping.  (The source decrements just before validating the QoS byte;
the decrement cannot fail, so the order is unobservable.) -/
def subLoop (topics : List (List Nat × QoS)) (remaining_bytes : Nat) (s : List Nat) :
    R (List (List Nat × QoS) × List Nat) :=
  if remaining_bytes = 0 then .ok (topics, s)
  else
    match h1 : read_mqtt_string s with
    | .error e => .error e
    | .ok (topic_filter, s1) =>
      match h2 : readU8 s1 with
      | .error e => .error e
      | .ok (requested_qod, s2) =>
        match QoS.from_u8 requested_qod with
        | .error e => .error e
        | .ok q =>
          subLoop (topics ++ [(topic_filter, q)])
            (wsub remaining_bytes (topic_filter.length + 3)) s2
termination_by s.length
decreasing_by
  rcases s with _ | ⟨a, _ | ⟨b, r⟩⟩
  · simp [read_mqtt_string, readU16, rerr] at h1
  · simp [read_mqtt_string, readU16, rerr] at h1
  · simp only [read_mqtt_string, readU16] at h1
    split at h1
    · simp only [Except.ok.injEq, Prod.mk.injEq] at h1
      obtain ⟨-, h1b⟩ := h1
      rcases s1 with _ | ⟨c, cs⟩
      · simp [readU8, rerr] at h2
      · simp only [readU8, Except.ok.injEq, Prod.mk.injEq] at h2
        obtain ⟨-, h2b⟩ := h2
        subst h2b
        have h3 := congrArg List.length h1b
        simp only [List.length_drop, List.length_cons] at h3 ⊢
        omega
    · simp [rerr] at h1

/-- read.rs `read_subscribe` (lines 126-142). -/
def read_subscribe (header : Header) (s : List Nat) : R (Subscribe × List Nat) := do
  let (pid, s) ← readU16 s
  let (topics, s) ← subLoop [] (wsub header.len 2) s
  pure ({ pid := pid, topics := topics }, s)

/-- Loop of read.rs `read_unsubscribe` (lines 149-153): like the
subscribe loop but with no QoS byte and decrement
`topic_filter.len() + 2`. -/
def unsubLoop (topics : List (List Nat)) (remaining_bytes : Nat) (s : List Nat) :
    R (List (List Nat) × List Nat) :=
  if remaining_bytes = 0 then .ok (topics, s)
  else
    match h1 : read_mqtt_string s with
    | .error e => .error e
    | .ok (topic_filter, s1) =>
      unsubLoop (topics ++ [topic_filter])
        (wsub remaining_bytes (topic_filter.length + 2)) s1
termination_by s.length
decreasing_by
  rcases s with _ | ⟨a, _ | ⟨b, r⟩⟩
  · simp [read_mqtt_string, readU16, rerr] at h1
  · simp [read_mqtt_string, readU16, rerr] at h1
  · simp only [read_mqtt_string, readU16] at h1
    split at h1
    · simp only [Except.ok.injEq, Prod.mk.injEq] at h1
      obtain ⟨-, h1b⟩ := h1
      subst h1b
      simp only [List.length_drop, List.length_cons]
      omega
    · simp [rerr] at h1

/-- read.rs `read_unsubscribe` (lines 144-159). -/
def read_unsubscribe (header : Header) (s : List Nat) : R (Unsubscribe × List Nat) := do
  let (pid, s) ← readU16 s
  let (topics, s) ← unsubLoop [] (wsub header.len 2) s
  pure ({ pid := pid, topics := topics }, s)

/-- Modelled from the spec: the subscribe loop with the counter-underflow
guard that spec section 9 calls mandatory - identical to `subLoop` except
that a decrement larger than the counter fails cleanly instead of
wrapping. -/
def subLoopGuarded (topics : List (List Nat × QoS)) (remaining_bytes : Nat) (s : List Nat) :
    R (List (List Nat × QoS) × List Nat) :=
  if remaining_bytes = 0 then .ok (topics, s)
  else
    match h1 : read_mqtt_string s with
    | .error e => .error e
    | .ok (topic_filter, s1) =>
      match h2 : readU8 s1 with
      | .error e => .error e
      | .ok (requested_qod, s2) =>
        match QoS.from_u8 requested_qod with
        | .error e => .error e
        | .ok q =>
          if remaining_bytes < topic_filter.length + 3 then rerr .IncorrectPacketFormat
          else
            subLoopGuarded (topics ++ [(topic_filter, q)])
              (remaining_bytes - (topic_filter.length + 3)) s2
termination_by s.length
decreasing_by
  rcases s with _ | ⟨a, _ | ⟨b, r⟩⟩
  · simp [read_mqtt_string, readU16, rerr] at h1
  · simp [read_mqtt_string, readU16, rerr] at h1
  · simp only [read_mqtt_string, readU16] at h1
    split at h1
    · simp only [Except.ok.injEq, Prod.mk.injEq] at h1
      obtain ⟨-, h1b⟩ := h1
      rcases s1 with _ | ⟨c, cs⟩
      · simp [readU8, rerr] at h2
      · simp only [readU8, Except.ok.injEq, Prod.mk.injEq] at h2
        obtain ⟨-, h2b⟩ := h2
        subst h2b
        have h3 := congrArg List.length h1b
        simp only [List.length_drop, List.length_cons] at h3 ⊢
        omega
    · simp [rerr] at h1

/-- Modelled from the spec: the unsubscribe loop with the mandatory
counter-underflow guard of spec section 9. -/
def unsubLoopGuarded (topics : List (List Nat)) (remaining_bytes : Nat) (s : List Nat) :
    R (List (List Nat) × List Nat) :=
  if remaining_bytes = 0 then .ok (topics, s)
  else
    match h1 : read_mqtt_string s with
    | .error e => .error e
    | .ok (topic_filter, s1) =>
      if remaining_bytes < topic_filter.length + 2 then rerr .IncorrectPacketFormat
      else
        unsubLoopGuarded (topics ++ [topic_filter])
          (remaining_bytes - (topic_filter.length + 2)) s1
termination_by s.length
decreasing_by
  rcases s with _ | ⟨a, _ | ⟨b, r⟩⟩
  · simp [read_mqtt_string, readU16, rerr] at h1
  · simp [read_mqtt_string, readU16, rerr] at h1
  · simp only [read_mqtt_string, readU16] at h1
    split at h1
    · simp only [Except.ok.injEq, Prod.mk.injEq] at h1
      obtain ⟨-, h1b⟩ := h1
      subst h1b
      simp only [List.length_drop, List.length_cons]
      omega
    · simp [rerr] at h1

/-- Modelled from the spec: `read_subscribe` over the guarded loop, with
the counter initialisation `header.len - 2` also checked. -/
def read_subscribe_guarded (header : Header) (s : List Nat) : R (Subscribe × List Nat) := do
  let (pid, s) ← readU16 s
  if header.len < 2 then rerr .IncorrectPacketFormat
  else do
    let (topics, s) ← subLoopGuarded [] (header.len - 2) s
    pure ({ pid := pid, topics := topics }, s)

/-- Modelled from the spec: `read_unsubscribe` over the guarded loop,
with the counter initialisation `header.len - 2` also checked. -/
def read_unsubscribe_guarded (header : Header) (s : List Nat) : R (Unsubscribe × List Nat) := do
  let (pid, s) ← readU16 s
  if header.len < 2 then rerr .IncorrectPacketFormat
  else do
    let (topics, s) ← unsubLoopGuarded [] (header.len - 2) s
    pure ({ pid := pid, topics := topics }, s)

/-- read.rs `read_packet` (lines 19-44): fixed-header byte, remaining
length, header validation, the zero-length special case, then the
bounded view (`take(len)`) handed to the matching body decoder.  The
returned list is what remains of the underlying buffer afterwards: the
body decoders consume from the front of the view, so the underlying
buffer advances by `view.length - leftover.length`. -/
def read_packet (s : List Nat) : R (Packet × List Nat) :=
  match readU8 s with
  | .error e => .error e
  | .ok (hd, s) =>
  match read_remaining_length s with
  | .error e => .error e
  | .ok (len, s) =>
  match Header.new hd len with
  | .error e => .error e
  | .ok header =>
  if len = 0 then
    match header.typ with
    | .Pingreq => .ok (.Pingreq, s)
    | .Pingresp => .ok (.Pingresp, s)
    | _ => rerr .PayloadRequired
  else
    let raw := s.take len
    match header.typ with
    | .Connect =>
      match read_connect raw with
      | .error e => .error e
      | .ok (c, v) => .ok (.Connect c, s.drop (raw.length - v.length))
    | .Connack => rerr .UnsupportedPacketType
    | .Publish =>
      match read_publish header raw with
      | .error e => .error e
      | .ok (p, v) => .ok (.Publish p, s.drop (raw.length - v.length))
    | .Subscribe =>
      match read_subscribe header raw with
      | .error e => .error e
      | .ok (sb, v) => .ok (.Subscribe sb, s.drop (raw.length - v.length))
    | .Unsubscribe =>
      match read_unsubscribe header raw with
      | .error e => .error e
      | .ok (u, v) => .ok (.Unsubscribe u, s.drop (raw.length - v.length))
    | .Pingreq => rerr .IncorrectPacketFormat
    | .Pingresp => rerr .IncorrectPacketFormat
    | _ => rerr .UnsupportedPacketType

/-! Helper lemmas about the primitive readers. -/

theorem readU8_ok {s : List Nat} {b : Nat} {r : List Nat} (h : readU8 s = .ok (b, r)) :
    s = b :: r := by
  cases s with
  | nil => simp [readU8, rerr] at h
  | cons a t =>
    simp only [readU8, Except.ok.injEq, Prod.mk.injEq] at h
    rw [h.1, h.2]

theorem readU16_ok {s : List Nat} {v : Nat} {r : List Nat} (h : readU16 s = .ok (v, r)) :
    ∃ a b, s = a :: b :: r ∧ v = a * 256 + b := by
  rcases s with _ | ⟨a, _ | ⟨b, t⟩⟩
  · simp [readU16, rerr] at h
  · simp [readU16, rerr] at h
  · simp only [readU16, Except.ok.injEq, Prod.mk.injEq] at h
    exact ⟨a, b, by rw [h.2], h.1.symm⟩

theorem read_mqtt_string_ok {s tf r : List Nat} (h : read_mqtt_string s = .ok (tf, r)) :
    ∃ a b t, s = a :: b :: t ∧ tf = t.take (a * 256 + b) ∧ r = t.drop (a * 256 + b) ∧
      utf8Valid tf = true := by
  rcases s with _ | ⟨a, _ | ⟨b, t⟩⟩
  · simp [read_mqtt_string, readU16, rerr] at h
  · simp [read_mqtt_string, readU16, rerr] at h
  · simp only [read_mqtt_string, readU16] at h
    split at h
    · rename_i hv
      simp only [Except.ok.injEq, Prod.mk.injEq] at h
      exact ⟨a, b, t, rfl, h.1.symm, h.2.symm, h.1 ▸ hv⟩
    · simp [rerr] at h

theorem read_mqtt_string_len {s tf r : List Nat} (h : read_mqtt_string s = .ok (tf, r)) :
    tf.length + 2 + r.length = s.length := by
  obtain ⟨a, b, t, hs, htf, hr, -⟩ := read_mqtt_string_ok h
  subst hs; subst htf; subst hr
  simp only [List.length_take, List.length_drop, List.length_cons]
  omega

theorem drop_isSuffix_drop (l : List Nat) {a b : Nat} (h : a ≤ b) :
    l.drop b <:+ l.drop a := by
  have h2 : l.drop b = (l.drop a).drop (b - a) := by
    rw [List.drop_drop]
    congr 1
    omega
  rw [h2]
  exact List.drop_suffix _ _

theorem readRemLenAux_suffix : ∀ (s : List Nat) (m l v : Nat) (r : List Nat),
    readRemLenAux s m l = .ok (v, r) → r <:+ s := by
  intro s
  induction s with
  | nil => intro m l v r h; simp [readRemLenAux, rerr] at h
  | cons b t ih =>
    intro m l v r h
    simp only [readRemLenAux] at h
    split at h
    · simp [rerr] at h
    · split at h
      · simp only [Except.ok.injEq, Prod.mk.injEq] at h
        rw [← h.2]
        exact List.suffix_cons b t
      · exact (ih _ _ _ _ h).trans (List.suffix_cons b t)

theorem wsub_small {a b : Nat} (hb : b ≤ a) (ha : a < USIZE) : wsub a b = a - b := by
  have hbU : b % USIZE = b := Nat.mod_eq_of_lt (lt_of_le_of_lt hb ha)
  unfold wsub
  rw [hbU]
  have h1 : a + (USIZE - b) = (a - b) + USIZE := by
    have : b ≤ USIZE := le_of_lt (lt_of_le_of_lt hb ha)
    omega
  rw [h1, Nat.add_mod_right]
  exact Nat.mod_eq_of_lt (by omega)

theorem utf8Valid_of_ascii_bytes : ∀ (l : List Nat), (∀ x ∈ l, x ≤ 0x7F) → utf8Valid l = true := by
  intro l
  induction l with
  | nil => intro _; rfl
  | cons b t ih =>
    intro h
    have hb : b ≤ 0x7F := h b (by simp)
    have hneed : utf8Need b = some [] := by rw [utf8Need, if_pos hb]
    show utf8Run [] (b :: t) = true
    rw [utf8Run, hneed]
    exact ih (fun x hx => h x (by simp [hx]))

/-- C3: read_remaining_length decodes [0x00] to 0, [0x7F] to 127,
[0x80,0x01] to 128 and [0xFF,0xFF,0xFF,0x7F] to 268435455; after the four
bytes [0xFF,0xFF,0xFF,0xFF] any 5th byte fails with
MalformedRemainingLength, while the bare 4-byte input (where that 5th
byte is missing) fails with the end-of-input I/O error instead. -/
theorem claim3_remaining_length_values :
    (∀ rest : List Nat, read_remaining_length (0x00 :: rest) = .ok (0, rest)) ∧
    (∀ rest : List Nat, read_remaining_length (0x7F :: rest) = .ok (127, rest)) ∧
    (∀ rest : List Nat, read_remaining_length (0x80 :: 0x01 :: rest) = .ok (128, rest)) ∧
    (∀ rest : List Nat,
      read_remaining_length (0xFF :: 0xFF :: 0xFF :: 0x7F :: rest) = .ok (268435455, rest)) ∧
    (∀ (b : Nat) (rest : List Nat),
      read_remaining_length (0xFF :: 0xFF :: 0xFF :: 0xFF :: b :: rest) =
        rerr .MalformedRemainingLength) ∧
    read_remaining_length [0xFF, 0xFF, 0xFF, 0xFF] = rerr .IoError :=
  ⟨fun _ => rfl, fun _ => rfl, fun _ => rfl, fun _ => rfl, fun _ _ => rfl, rfl⟩

/-- C3 counterexample: on the exact input [0xFF,0xFF,0xFF,0xFF] the
decoder fails with the end-of-input I/O error, not with
MalformedRemainingLength as the claim states. -/
theorem claim3_counterexample_ffff_is_eof :
    read_remaining_length [0xFF, 0xFF, 0xFF, 0xFF] = rerr Error.IoError ∧
    read_remaining_length [0xFF, 0xFF, 0xFF, 0xFF] ≠ rerr Error.MalformedRemainingLength := by
  decide

/-- C6: decoding the literal CONNECT packet of the claim yields a Connect
packet with protocol MQTT level 4, keep-alive 10, client id "test",
clean-session true, a last will with topic "/a", message "offline",
retain false and QoS at-least-once, username "rust" and password "mq". -/
theorem claim6_connect_vector :
    read_packet ([0x10, 39, 0x00, 0x04] ++ ascii "MQTT" ++
        [0x04, 0b11001110, 0x00, 0x0a, 0x00, 0x04] ++ ascii "test" ++
        [0x00, 0x02] ++ ascii "/a" ++ [0x00, 0x07] ++ ascii "offline" ++
        [0x00, 0x04] ++ ascii "rust" ++ [0x00, 0x02] ++ ascii "mq") =
      .ok (.Connect { protocol := .MQTT 4, keep_alive := 10, client_id := ascii "test",
                      clean_session := true,
                      last_will := some { topic := ascii "/a", message := ascii "offline",
                                          qos := .AtLeastOnce, retain := false },
                      username := some (ascii "rust"), password := some (ascii "mq") }, []) := by
  decide

/-- C4 (amended): with remaining length 0, fixed-header byte 0xC0
decodes to the Pingreq packet, byte 0xD0 (type code Pingresp) decodes to
the Pingresp packet, and every other valid packet type code fails with
PayloadRequired before any body decoder runs. -/
theorem claim4_zero_length_dispatch :
    (∀ rest : List Nat, read_packet (0xC0 :: 0x00 :: rest) = .ok (.Pingreq, rest)) ∧
    (∀ rest : List Nat, read_packet (0xD0 :: 0x00 :: rest) = .ok (.Pingresp, rest)) ∧
    (∀ (hd : Nat) (rest : List Nat) (t : PacketType), PacketType.from_hd hd = .ok t →
      t ≠ .Pingreq → t ≠ .Pingresp →
      read_packet (hd :: 0x00 :: rest) = rerr .PayloadRequired) := by
  refine ⟨fun rest => rfl, fun rest => rfl, ?_⟩
  intro hd rest t ht h1 h2
  have hrl : read_remaining_length (0x00 :: rest) = .ok (0, rest) := rfl
  simp only [read_packet, readU8, hrl, Header.new, ht]
  cases t <;> simp_all [rerr]

/-- C4 counterexample: fixed-header byte 0xD0 with remaining length 0 is
a packet type code other than 0xC0's, yet read_packet returns the
Pingresp packet instead of failing with PayloadRequired. -/
theorem claim4_counterexample_pingresp_zero_ok :
    read_packet [0xD0, 0x00] = .ok (.Pingresp, []) ∧
    read_packet [0xD0, 0x00] ≠ rerr .PayloadRequired := by
  decide

/-- C4 witness: the Connect type code with remaining length 0 fails with
PayloadRequired. -/
theorem claim4_witness : read_packet [0x10, 0x00] = rerr .PayloadRequired :=
  claim4_zero_length_dispatch.2.2 0x10 [] .Connect (by decide) (by decide) (by decide)

/-- C7 (amended): read_mqtt_string fails with an I/O error when even the
2-byte length prefix is incomplete; once the prefix is read it takes
min(declared, available) bytes: if they are not valid UTF-8 it fails
with the distinct string-decode error, otherwise it returns them -
exactly the declared count when the source holds at least that many
bytes, and silently the shorter available remainder (not an I/O error)
when the source is truncated. -/
theorem claim7_mqtt_string_behaviour :
    (∀ s : List Nat, s.length < 2 → read_mqtt_string s = rerr .IoError) ∧
    (∀ (a b : Nat) (t : List Nat), utf8Valid (t.take (a * 256 + b)) = false →
      read_mqtt_string (a :: b :: t) = rerr .StringDecode) ∧
    (∀ (a b : Nat) (t : List Nat), utf8Valid (t.take (a * 256 + b)) = true →
      read_mqtt_string (a :: b :: t) = .ok (t.take (a * 256 + b), t.drop (a * 256 + b)) ∧
        (a * 256 + b ≤ t.length → (t.take (a * 256 + b)).length = a * 256 + b)) ∧
    (∀ (a b : Nat) (t : List Nat), t.length < a * 256 + b → utf8Valid t = true →
      read_mqtt_string (a :: b :: t) = .ok (t, [])) := by
  refine ⟨?_, ?_, ?_, ?_⟩
  · intro s hs
    rcases s with _ | ⟨a, _ | ⟨b, t⟩⟩
    · rfl
    · rfl
    · simp only [List.length_cons] at hs
      omega
  · intro a b t hv
    simp only [read_mqtt_string, readU16]
    rw [if_neg]
    simp [hv]
  · intro a b t hv
    constructor
    · simp only [read_mqtt_string, readU16]
      rw [if_pos hv]
    · intro hle
      simp only [List.length_take]
      omega
  · intro a b t hlt hv
    have htk : t.take (a * 256 + b) = t := List.take_of_length_le (le_of_lt hlt)
    have hdp : t.drop (a * 256 + b) = [] := List.drop_eq_nil_of_le (le_of_lt hlt)
    simp only [read_mqtt_string, readU16, htk, hdp]
    rw [if_pos hv]

/-- C7 counterexample: a declared length of 5 with only 2 content bytes
available returns those 2 bytes successfully instead of failing with an
I/O error as the claim states. -/
theorem claim7_counterexample_short_read_ok :
    read_mqtt_string [0x00, 0x05, 0x61, 0x62] = .ok ([0x61, 0x62], []) ∧
    read_mqtt_string [0x00, 0x05, 0x61, 0x62] ≠ rerr .IoError := by
  decide

/-- C7 witness: a fully available declared field is returned exactly. -/
theorem claim7_witness :
    read_mqtt_string [0x00, 0x02, 0x61, 0x62, 0x63] = .ok ([0x61, 0x62], [0x63]) := by
  have h := (claim7_mqtt_string_behaviour.2.2.1 0 2 [0x61, 0x62, 0x63] (by decide)).1
  rw [h]
  rfl

/-- C10: for every Pingreq or Pingresp fixed header (type nibble 12 or
13) whose decoded remaining length is nonzero, read_packet fails with
IncorrectPacketFormat; and whenever such a packet decodes successfully,
its decoded remaining length was 0. -/
theorem claim10_ping_nonzero_length :
    (∀ (hd len : Nat) (tail r2 : List Nat), (hd >>> 4 = 12 ∨ hd >>> 4 = 13) →
      read_remaining_length tail = .ok (len, r2) → len ≠ 0 →
      read_packet (hd :: tail) = rerr .IncorrectPacketFormat) ∧
    (∀ (hd : Nat) (tail : List Nat) (p : Packet) (rest : List Nat),
      (hd >>> 4 = 12 ∨ hd >>> 4 = 13) → read_packet (hd :: tail) = .ok (p, rest) →
      read_remaining_length tail = .ok (0, rest)) := by
  constructor
  · intro hd len tail r2 hnib hrl hlen
    rcases hnib with hnib | hnib
    · have hft : PacketType.from_hd hd = .ok .Pingreq := by
        unfold PacketType.from_hd
        rw [hnib]
      simp only [read_packet, readU8, hrl, Header.new, hft, if_neg hlen]
    · have hft : PacketType.from_hd hd = .ok .Pingresp := by
        unfold PacketType.from_hd
        rw [hnib]
      simp only [read_packet, readU8, hrl, Header.new, hft, if_neg hlen]
  · intro hd tail p rest hnib hok
    cases hrl : read_remaining_length tail with
    | error e =>
      simp only [read_packet, readU8, hrl] at hok
      exact Except.noConfusion hok
    | ok v =>
      obtain ⟨len, r2⟩ := v
      by_cases h0 : len = 0
      · subst h0
        rcases hnib with hnib | hnib
        · have hft : PacketType.from_hd hd = .ok .Pingreq := by
            unfold PacketType.from_hd
            rw [hnib]
          simp only [read_packet, readU8, hrl, Header.new, hft] at hok
          simp at hok
          obtain ⟨-, hb⟩ := hok
          subst hb
          rfl
        · have hft : PacketType.from_hd hd = .ok .Pingresp := by
            unfold PacketType.from_hd
            rw [hnib]
          simp only [read_packet, readU8, hrl, Header.new, hft] at hok
          simp at hok
          obtain ⟨-, hb⟩ := hok
          subst hb
          rfl
      · rcases hnib with hnib | hnib
        · have hft : PacketType.from_hd hd = .ok .Pingreq := by
            unfold PacketType.from_hd
            rw [hnib]
          simp only [read_packet, readU8, hrl, Header.new, hft, if_neg h0] at hok
          simp [rerr] at hok
        · have hft : PacketType.from_hd hd = .ok .Pingresp := by
            unfold PacketType.from_hd
            rw [hnib]
          simp only [read_packet, readU8, hrl, Header.new, hft, if_neg h0] at hok
          simp [rerr] at hok

/-- C10 witness: a Pingreq fixed header with remaining length 1 fails
with IncorrectPacketFormat. -/
theorem claim10_witness : read_packet [0xC0, 0x01] = rerr .IncorrectPacketFormat :=
  claim10_ping_nonzero_length.1 0xC0 1 [0x01] [] (Or.inl (by decide)) (by decide) (by decide)

theorem bind_ok_local {α β : Type} (a : α) (f : α → R β) :
    ((Except.ok a : R α) >>= f) = f a := rfl

theorem bind_err_local {α β : Type} (e : Fail) (f : α → R β) :
    ((Except.error e : R α) >>= f) = .error e := rfl

theorem pure_def_local {α : Type} (a : α) : (pure a : R α) = .ok a := rfl

theorem and_mask_56_of_24 {x : Nat} (h : x &&& 0b11000 ≠ 0) : x &&& 0b00111000 ≠ 0 := by
  intro hc
  apply h
  have h3 : (0b00111000 &&& 0b11000 : Nat) = 0b11000 := by decide
  have h2 : x &&& 0b00111000 &&& 0b11000 = x &&& 0b11000 := by rw [Nat.land_assoc, h3]
  rw [← h2, hc]
  decide

/-- C1 counterexample: a PUBLISH fixed header with the invalid QoS bit
pattern 11 (byte 0x36) and a readable empty topic name makes read_packet
panic (the `unwrap` of the invalid-QoS error in read_publish) instead of
returning a typed packet or an error. -/
theorem claim1_counterexample_publish_invalid_qos_panics :
    read_packet [0x36, 0x02, 0x00, 0x00] = .error .panicked := by
  decide

/-- C1 (amended): for every finite buffer beginning with a fixed-header
byte, read_packet terminates with a typed packet, an error, or - only
via the invalid-QoS unwrap in read_publish - a panic; on success the
leftover is a suffix of the input (no byte past the end of the buffer is
consumed) and the body consumes at most the declared remaining length
(everything beyond it is still in the leftover); this covers SUBSCRIBE
and UNSUBSCRIBE bodies with oversized declared topic-filter lengths. -/
theorem claim1_read_packet_total_bounded :
    (∀ s : List Nat, (∃ e, read_packet s = rerr e) ∨ read_packet s = .error .panicked ∨
      (∃ p rest, read_packet s = .ok (p, rest))) ∧
    (∀ (hd : Nat) (tail : List Nat) (p : Packet) (rest : List Nat),
      read_packet (hd :: tail) = .ok (p, rest) →
      rest <:+ hd :: tail ∧
      (∀ (len2 : Nat) (r2 : List Nat), read_remaining_length tail = .ok (len2, r2) →
        r2.drop len2 <:+ rest)) := by
  constructor
  · intro s
    cases h : read_packet s with
    | error f =>
      cases f with
      | err e => exact Or.inl ⟨e, rfl⟩
      | panicked => exact Or.inr (Or.inl rfl)
    | ok v => exact Or.inr (Or.inr ⟨v.1, v.2, rfl⟩)
  · intro hd tail p rest hok
    cases hrl : read_remaining_length tail with
    | error e =>
      simp only [read_packet, readU8, hrl] at hok
      exact Except.noConfusion hok
    | ok v =>
      obtain ⟨len, s2⟩ := v
      have hsuf2 : s2 <:+ tail := readRemLenAux_suffix tail 1 0 len s2 hrl
      cases hft : PacketType.from_hd hd with
      | error e =>
        simp only [read_packet, readU8, hrl, Header.new, hft] at hok
        exact Except.noConfusion hok
      | ok t =>
        by_cases h0 : len = 0
        · subst h0
          cases t <;>
            simp only [read_packet, readU8, hrl, Header.new, hft] at hok <;>
            simp [rerr] at hok
          all_goals
            obtain ⟨-, hr⟩ := hok
            subst hr
            refine ⟨hsuf2.trans (List.suffix_cons hd tail), ?_⟩
            intro len2 r2 h2
            simp only [Except.ok.injEq, Prod.mk.injEq] at h2
            obtain ⟨hl2, hr2⟩ := h2
            rw [← hl2, ← hr2, List.drop_zero]
        · cases t <;>
            simp only [read_packet, readU8, hrl, Header.new, hft, if_neg h0] at hok
          all_goals try exact Except.noConfusion hok
          all_goals
            split at hok
            next heq => exact Except.noConfusion hok
            next c v heq =>
              simp only [Except.ok.injEq, Prod.mk.injEq] at hok
              obtain ⟨-, hr⟩ := hok
              constructor
              · rw [← hr]
                exact ((List.drop_suffix _ _).trans hsuf2).trans (List.suffix_cons hd tail)
              · intro len2 r2 h2
                simp only [Except.ok.injEq, Prod.mk.injEq] at h2
                obtain ⟨hl2, hr2⟩ := h2
                rw [← hr, ← hl2, ← hr2]
                apply drop_isSuffix_drop
                exact le_trans (Nat.sub_le _ _) (List.length_take_le len s2)

/-- C1 witness: a well-formed QoS-0 PUBLISH buffer decodes successfully
and its leftover is a suffix of the input buffer. -/
theorem claim1_witness :
    ([] : List Nat) <:+ [0x30, 7, 0x00, 0x03, 0x61, 0x2F, 0x62] := by
  have h := claim1_read_packet_total_bounded.2 0x30 [7, 0x00, 0x03, 0x61, 0x2F, 0x62]
    (.Publish { dup := false, qos := .AtMostOnce, retain := false,
                topic_name := [0x61, 0x2F, 0x62], pid := none, payload := [] }) []
    (by decide)
  exact h.1

/-- C5 (amended): a successful read_publish yields a packet identifier
exactly when the header's QoS is not at-most-once, consumes the whole
bounded view (payload = the remaining bytes of the view), and so the
payload length plus the topic-name field's encoded size plus the
identifier size equals the VIEW's length - which equals the declared
remaining length when the source holds at least that many bytes, and is
smaller (a short payload, not an error) on truncated input. -/
theorem claim5_publish_fields :
    ∀ (header : Header) (view : List Nat) (pb : Publish) (v : List Nat),
      read_publish header view = .ok (pb, v) →
      (pb.pid.isSome ↔ pb.qos ≠ .AtMostOnce) ∧
      Header.qos header = .ok pb.qos ∧
      v = [] ∧
      pb.payload.length + (pb.topic_name.length + 2) +
        (if pb.pid.isSome then 2 else 0) = view.length := by
  intro header view pb v hok
  cases hs : read_mqtt_string view with
  | error e =>
    simp only [read_publish, hs, bind_err_local] at hok
    exact Except.noConfusion hok
  | ok w =>
    obtain ⟨tf, s1⟩ := w
    have hslen := read_mqtt_string_len hs
    simp only [read_publish, hs, bind_ok_local] at hok
    cases hq : Header.qos header with
    | error f =>
      rw [hq] at hok
      simp at hok
    | ok q =>
      rw [hq] at hok
      by_cases hqq : q = QoS.AtMostOnce
      · subst hqq
        simp only [bne_self_eq_false, Bool.false_eq_true, if_false, pure_def_local,
          bind_ok_local, Except.ok.injEq, Prod.mk.injEq] at hok
        obtain ⟨hpb, hv⟩ := hok
        subst hpb
        subst hv
        refine ⟨by simp, rfl, rfl, ?_⟩
        simp only [Option.isSome_none, Bool.false_eq_true, if_false]
        omega
      · have hbne : (q != QoS.AtMostOnce) = true := bne_iff_ne.mpr hqq
        simp only [hbne, if_true] at hok
        cases h16 : readU16 s1 with
        | error e =>
          rw [h16] at hok
          simp only [bind_err_local] at hok
          exact Except.noConfusion hok
        | ok u =>
          obtain ⟨pv, s2⟩ := u
          obtain ⟨a, b, hs1, -⟩ := readU16_ok h16
          rw [h16] at hok
          simp only [bind_ok_local, pure_def_local, Except.ok.injEq, Prod.mk.injEq] at hok
          obtain ⟨hpb, hv⟩ := hok
          subst hpb
          subst hv
          refine ⟨by simp [hqq], rfl, rfl, ?_⟩
          simp only [Option.isSome_some, if_true]
          have : s1.length = s2.length + 2 := by rw [hs1]; simp
          omega

/-- C5 counterexample: a PUBLISH whose underlying buffer is 2 bytes
shorter than the declared remaining length decodes successfully with an
empty payload, so the payload length is not remaining length minus the
topic field's encoded size (7 - 5 = 2) as the claim states. -/
theorem claim5_counterexample_truncated_payload :
    read_packet [0x30, 7, 0x00, 0x03, 0x61, 0x2F, 0x62] =
      .ok (.Publish { dup := false, qos := .AtMostOnce, retain := false,
                      topic_name := [0x61, 0x2F, 0x62], pid := none, payload := [] }, []) ∧
    (0 : Nat) ≠ 7 - (3 + 2) := by
  decide

/-- C5 witness: the repository's QoS-1 PUBLISH test vector satisfies the
amended field equations. -/
theorem claim5_witness :
    ((some (10 : Nat)).isSome ↔ QoS.AtLeastOnce ≠ QoS.AtMostOnce) ∧
    Header.qos { hd := 0b00110010, typ := .Publish, len := 11 } = .ok QoS.AtLeastOnce ∧
    ([] : List Nat) = [] ∧
    ([0xF1, 0xF2, 0xF3, 0xF4] : List Nat).length + (([0x61, 0x2F, 0x62] : List Nat).length + 2) +
      (if (some (10 : Nat)).isSome then 2 else 0) =
      ([0x00, 0x03, 0x61, 0x2F, 0x62, 0x00, 0x0a, 0xF1, 0xF2, 0xF3, 0xF4] : List Nat).length := by
  have h := claim5_publish_fields { hd := 0b00110010, typ := .Publish, len := 11 }
    [0x00, 0x03, 0x61, 0x2F, 0x62, 0x00, 0x0a, 0xF1, 0xF2, 0xF3, 0xF4]
    { dup := false, qos := .AtLeastOnce, retain := false,
      topic_name := [0x61, 0x2F, 0x62], pid := some 10, payload := [0xF1, 0xF2, 0xF3, 0xF4] }
    [] (by decide)
  exact h

/-- C9: for every CONNECT body whose connect-flags byte has the will
flag (bit 0b100) clear and at least one will-QoS bit (mask 0b11000)
set, read_connect fails with IncorrectPacketFormat and no Connect value
is returned - stated with the MQTT level-4 protocol header, arbitrary
keep-alive bytes, an arbitrary ASCII client identifier and arbitrary
trailing bytes. -/
theorem claim9_will_qos_without_will_flag :
    ∀ (flags kh kl : Nat) (cid rest : List Nat),
      (∀ x ∈ cid, x ≤ 0x7F) → cid.length < 0x10000 →
      flags &&& 0b100 = 0 → flags &&& 0b11000 ≠ 0 →
      read_connect ([0x00, 0x04] ++ ascii "MQTT" ++
          [0x04, flags, kh, kl, cid.length / 256, cid.length % 256] ++ cid ++ rest) =
        rerr .IncorrectPacketFormat := by
  intro flags kh kl cid rest hascii hlen h4 h18
  have hM : ascii "MQTT" = [77, 81, 84, 84] := by decide
  rw [hM]
  have hstr : ∀ T : List Nat,
      read_mqtt_string (0x00 :: 0x04 :: ([77, 81, 84, 84] ++ T)) = .ok ([77, 81, 84, 84], T) := by
    intro T
    have hlen4 : ([77, 81, 84, 84] : List Nat).length = 0 * 256 + 4 := rfl
    simp only [read_mqtt_string, readU16, List.take_left' hlen4, List.drop_left' hlen4]
    rw [if_pos (by decide)]
  have hdm : cid.length / 256 * 256 + cid.length % 256 = cid.length := by omega
  have hcid : read_mqtt_string ((cid.length / 256) :: (cid.length % 256) :: (cid ++ rest)) =
      .ok (cid, rest) := by
    have hlenc : cid.length = cid.length / 256 * 256 + cid.length % 256 := hdm.symm
    simp only [read_mqtt_string, readU16, List.take_left' hlenc, List.drop_left' hlenc]
    rw [if_pos (utf8Valid_of_ascii_bytes cid hascii)]
  have hproto : Protocol.new [77, 81, 84, 84] 4 = .ok (.MQTT 4) := by decide
  have hmask : flags &&& 0b00111000 ≠ 0 := and_mask_56_of_24 h18
  have hbeq4 : (flags &&& 0b100 == 0) = true := by simp [h4]
  have hbne56 : (flags &&& 0b00111000 != 0) = true := bne_iff_ne.mpr hmask
  simp only [List.cons_append, List.nil_append] at hstr ⊢
  simp only [read_connect, hstr, bind_ok_local, readU8, readU16, hproto, hcid,
    hbeq4, if_true, hbne56, rerr, bind_err_local]

/-- C9 witness: a concrete CONNECT body with flags 0b00001000 (will flag
clear, will-QoS bit set) fails with IncorrectPacketFormat. -/
theorem claim9_witness :
    read_connect [0x00, 0x04, 77, 81, 84, 84, 0x04, 0x08, 0x00, 0x0a, 0x00, 0x00] =
      rerr .IncorrectPacketFormat := by
  have h := claim9_will_qos_without_will_flag 0x08 0x00 0x0a [] [] (by simp) (by decide)
    (by decide) (by decide)
  have heq : ([0x00, 0x04] ++ ascii "MQTT" ++
      [0x04, 0x08, 0x00, 0x0a, List.length ([] : List Nat) / 256,
        List.length ([] : List Nat) % 256] ++ ([] : List Nat) ++ ([] : List Nat)) =
      ([0x00, 0x04, 77, 81, 84, 84, 0x04, 0x08, 0x00, 0x0a, 0x00, 0x00] : List Nat) := by
    decide
  rw [heq] at h
  exact h

/-! Plain one-step unfolding equations for the four loops (their
definitions carry equation hypotheses only for the termination proof). -/

theorem subLoop_eq (tps : List (List Nat × QoS)) (c : Nat) (s : List Nat) :
    subLoop tps c s =
      if c = 0 then .ok (tps, s)
      else
        match read_mqtt_string s with
        | .error e => .error e
        | .ok (tf, s1) =>
          match readU8 s1 with
          | .error e => .error e
          | .ok (q8, s2) =>
            match QoS.from_u8 q8 with
            | .error e => .error e
            | .ok q => subLoop (tps ++ [(tf, q)]) (wsub c (tf.length + 3)) s2 := by
  rw [subLoop]
  by_cases hc : c = 0
  · rw [if_pos hc, if_pos hc]
  · rw [if_neg hc, if_neg hc]
    split <;> rename_i heq <;> simp only [heq] <;>
      (try (split <;> rename_i heq2 <;> simp only [heq2] <;>
        (try (split <;> rename_i heq3 <;> simp only [heq3]))))

theorem unsubLoop_eq (tps : List (List Nat)) (c : Nat) (s : List Nat) :
    unsubLoop tps c s =
      if c = 0 then .ok (tps, s)
      else
        match read_mqtt_string s with
        | .error e => .error e
        | .ok (tf, s1) => unsubLoop (tps ++ [tf]) (wsub c (tf.length + 2)) s1 := by
  rw [unsubLoop]
  by_cases hc : c = 0
  · rw [if_pos hc, if_pos hc]
  · rw [if_neg hc, if_neg hc]
    split <;> rename_i heq <;> simp only [heq]

theorem subLoopGuarded_eq (tps : List (List Nat × QoS)) (c : Nat) (s : List Nat) :
    subLoopGuarded tps c s =
      if c = 0 then .ok (tps, s)
      else
        match read_mqtt_string s with
        | .error e => .error e
        | .ok (tf, s1) =>
          match readU8 s1 with
          | .error e => .error e
          | .ok (q8, s2) =>
            match QoS.from_u8 q8 with
            | .error e => .error e
            | .ok q =>
              if c < tf.length + 3 then rerr .IncorrectPacketFormat
              else subLoopGuarded (tps ++ [(tf, q)]) (c - (tf.length + 3)) s2 := by
  rw [subLoopGuarded]
  by_cases hc : c = 0
  · rw [if_pos hc, if_pos hc]
  · rw [if_neg hc, if_neg hc]
    split <;> rename_i heq <;> simp only [heq] <;>
      (try (split <;> rename_i heq2 <;> simp only [heq2] <;>
        (try (split <;> rename_i heq3 <;> simp only [heq3]))))

theorem unsubLoopGuarded_eq (tps : List (List Nat)) (c : Nat) (s : List Nat) :
    unsubLoopGuarded tps c s =
      if c = 0 then .ok (tps, s)
      else
        match read_mqtt_string s with
        | .error e => .error e
        | .ok (tf, s1) =>
          if c < tf.length + 2 then rerr .IncorrectPacketFormat
          else unsubLoopGuarded (tps ++ [tf]) (c - (tf.length + 2)) s1 := by
  rw [unsubLoopGuarded]
  by_cases hc : c = 0
  · rw [if_pos hc, if_pos hc]
  · rw [if_neg hc, if_neg hc]
    split <;> rename_i heq <;> simp only [heq]

/-- A successful read_publish consumes its whole bounded view. -/
theorem read_publish_rest_nil {header : Header} {view : List Nat} {pb : Publish}
    {v : List Nat} (hok : read_publish header view = .ok (pb, v)) : v = [] := by
  cases hs : read_mqtt_string view with
  | error e =>
    simp only [read_publish, hs, bind_err_local] at hok
    exact Except.noConfusion hok
  | ok w =>
    obtain ⟨tf, s1⟩ := w
    simp only [read_publish, hs, bind_ok_local] at hok
    cases hq : Header.qos header with
    | error f =>
      rw [hq] at hok
      simp at hok
    | ok q =>
      rw [hq] at hok
      by_cases hqq : q = QoS.AtMostOnce
      · subst hqq
        simp only [bne_self_eq_false, Bool.false_eq_true, if_false, pure_def_local,
          bind_ok_local, Except.ok.injEq, Prod.mk.injEq] at hok
        exact hok.2.symm
      · have hbne : (q != QoS.AtMostOnce) = true := bne_iff_ne.mpr hqq
        simp only [hbne, if_true] at hok
        cases h16 : readU16 s1 with
        | error e =>
          rw [h16] at hok
          simp only [bind_err_local] at hok
          exact Except.noConfusion hok
        | ok u =>
          obtain ⟨pv, s2⟩ := u
          rw [h16] at hok
          simp only [bind_ok_local, pure_def_local, Except.ok.injEq, Prod.mk.injEq] at hok
          exact hok.2.symm

/-- A successful subscribe loop run consumed exactly its starting
counter, which therefore equalled the bytes available. -/
theorem subLoop_exact : ∀ (n : Nat) (s : List Nat) (tps : List (List Nat × QoS)) (c : Nat)
    (ts : List (List Nat × QoS)) (r : List Nat), s.length ≤ n → s.length ≤ c → c < USIZE →
    subLoop tps c s = .ok (ts, r) → s.length = c ∧ r = [] := by
  intro n
  induction n with
  | zero =>
    intro s tps c ts r hn hc hU hok
    have hs : s = [] := List.eq_nil_of_length_eq_zero (Nat.le_zero.mp hn)
    subst hs
    by_cases hc0 : c = 0
    · subst hc0
      rw [subLoop_eq, if_pos rfl] at hok
      simp only [Except.ok.injEq, Prod.mk.injEq] at hok
      exact ⟨rfl, hok.2.symm⟩
    · rw [subLoop_eq, if_neg hc0] at hok
      have h1 : read_mqtt_string ([] : List Nat) = rerr .IoError := rfl
      simp only [h1, rerr] at hok
      exact Except.noConfusion hok
  | succ m ih =>
    intro s tps c ts r hn hc hU hok
    by_cases hc0 : c = 0
    · subst hc0
      have hs : s = [] := List.eq_nil_of_length_eq_zero (Nat.le_zero.mp hc)
      subst hs
      rw [subLoop_eq, if_pos rfl] at hok
      simp only [Except.ok.injEq, Prod.mk.injEq] at hok
      exact ⟨rfl, hok.2.symm⟩
    · rw [subLoop_eq, if_neg hc0] at hok
      cases h1 : read_mqtt_string s with
      | error e =>
        simp only [h1] at hok
        exact Except.noConfusion hok
      | ok w =>
        obtain ⟨tf, s1⟩ := w
        simp only [h1] at hok
        cases h2 : readU8 s1 with
        | error e =>
          simp only [h2] at hok
          exact Except.noConfusion hok
        | ok u =>
          obtain ⟨q8, s2⟩ := u
          simp only [h2] at hok
          cases hq : QoS.from_u8 q8 with
          | error e =>
            simp only [hq] at hok
            exact Except.noConfusion hok
          | ok q =>
            simp only [hq] at hok
            have hlen1 := read_mqtt_string_len h1
            have hs1 : s1 = q8 :: s2 := readU8_ok h2
            have hlen2 : s1.length = s2.length + 1 := by rw [hs1]; rfl
            rw [wsub_small (by omega) hU] at hok
            have hrec := ih s2 (tps ++ [(tf, q)]) (c - (tf.length + 3)) ts r
              (by omega) (by omega) (by omega) hok
            exact ⟨by omega, hrec.2⟩

/-- A successful unsubscribe loop run consumed exactly its starting
counter, which therefore equalled the bytes available. -/
theorem unsubLoop_exact : ∀ (n : Nat) (s : List Nat) (tps : List (List Nat)) (c : Nat)
    (ts : List (List Nat)) (r : List Nat), s.length ≤ n → s.length ≤ c → c < USIZE →
    unsubLoop tps c s = .ok (ts, r) → s.length = c ∧ r = [] := by
  intro n
  induction n with
  | zero =>
    intro s tps c ts r hn hc hU hok
    have hs : s = [] := List.eq_nil_of_length_eq_zero (Nat.le_zero.mp hn)
    subst hs
    by_cases hc0 : c = 0
    · subst hc0
      rw [unsubLoop_eq, if_pos rfl] at hok
      simp only [Except.ok.injEq, Prod.mk.injEq] at hok
      exact ⟨rfl, hok.2.symm⟩
    · rw [unsubLoop_eq, if_neg hc0] at hok
      have h1 : read_mqtt_string ([] : List Nat) = rerr .IoError := rfl
      simp only [h1, rerr] at hok
      exact Except.noConfusion hok
  | succ m ih =>
    intro s tps c ts r hn hc hU hok
    by_cases hc0 : c = 0
    · subst hc0
      have hs : s = [] := List.eq_nil_of_length_eq_zero (Nat.le_zero.mp hc)
      subst hs
      rw [unsubLoop_eq, if_pos rfl] at hok
      simp only [Except.ok.injEq, Prod.mk.injEq] at hok
      exact ⟨rfl, hok.2.symm⟩
    · rw [unsubLoop_eq, if_neg hc0] at hok
      cases h1 : read_mqtt_string s with
      | error e =>
        simp only [h1] at hok
        exact Except.noConfusion hok
      | ok w =>
        obtain ⟨tf, s1⟩ := w
        simp only [h1] at hok
        have hlen1 := read_mqtt_string_len h1
        rw [wsub_small (by omega) hU] at hok
        have hrec := ih s1 (tps ++ [tf]) (c - (tf.length + 2)) ts r
          (by omega) (by omega) (by omega) hok
        exact ⟨by omega, hrec.2⟩

/-- On a view no longer than the counter (the situation `Take` creates),
the wrapping subscribe loop and the spec-mandated guarded loop agree:
the wrapping subtraction is never an underflow. -/
theorem subLoop_guard_agrees : ∀ (n : Nat) (s : List Nat) (tps : List (List Nat × QoS)) (c : Nat),
    s.length ≤ n → s.length ≤ c → c < USIZE → subLoop tps c s = subLoopGuarded tps c s := by
  intro n
  induction n with
  | zero =>
    intro s tps c hn hc hU
    have hs : s = [] := List.eq_nil_of_length_eq_zero (Nat.le_zero.mp hn)
    subst hs
    by_cases hc0 : c = 0
    · rw [subLoop_eq, subLoopGuarded_eq, if_pos hc0, if_pos hc0]
    · rw [subLoop_eq, subLoopGuarded_eq, if_neg hc0, if_neg hc0]
      have h1 : read_mqtt_string ([] : List Nat) = rerr .IoError := rfl
      simp only [h1, rerr]
  | succ m ih =>
    intro s tps c hn hc hU
    by_cases hc0 : c = 0
    · rw [subLoop_eq, subLoopGuarded_eq, if_pos hc0, if_pos hc0]
    · rw [subLoop_eq, subLoopGuarded_eq, if_neg hc0, if_neg hc0]
      cases h1 : read_mqtt_string s with
      | error e => simp only [h1]
      | ok w =>
        obtain ⟨tf, s1⟩ := w
        simp only [h1]
        cases h2 : readU8 s1 with
        | error e => simp only [h2]
        | ok u =>
          obtain ⟨q8, s2⟩ := u
          simp only [h2]
          cases hq : QoS.from_u8 q8 with
          | error e => simp only [hq]
          | ok q =>
            simp only [hq]
            have hlen1 := read_mqtt_string_len h1
            have hs1 : s1 = q8 :: s2 := readU8_ok h2
            have hlen2 : s1.length = s2.length + 1 := by rw [hs1]; rfl
            rw [if_neg (by omega), wsub_small (by omega) hU]
            exact ih s2 (tps ++ [(tf, q)]) (c - (tf.length + 3)) (by omega) (by omega) (by omega)

/-- On a view no longer than the counter, the wrapping unsubscribe loop
and the spec-mandated guarded loop agree. -/
theorem unsubLoop_guard_agrees : ∀ (n : Nat) (s : List Nat) (tps : List (List Nat)) (c : Nat),
    s.length ≤ n → s.length ≤ c → c < USIZE → unsubLoop tps c s = unsubLoopGuarded tps c s := by
  intro n
  induction n with
  | zero =>
    intro s tps c hn hc hU
    have hs : s = [] := List.eq_nil_of_length_eq_zero (Nat.le_zero.mp hn)
    subst hs
    by_cases hc0 : c = 0
    · rw [unsubLoop_eq, unsubLoopGuarded_eq, if_pos hc0, if_pos hc0]
    · rw [unsubLoop_eq, unsubLoopGuarded_eq, if_neg hc0, if_neg hc0]
      have h1 : read_mqtt_string ([] : List Nat) = rerr .IoError := rfl
      simp only [h1, rerr]
  | succ m ih =>
    intro s tps c hn hc hU
    by_cases hc0 : c = 0
    · rw [unsubLoop_eq, unsubLoopGuarded_eq, if_pos hc0, if_pos hc0]
    · rw [unsubLoop_eq, unsubLoopGuarded_eq, if_neg hc0, if_neg hc0]
      cases h1 : read_mqtt_string s with
      | error e => simp only [h1]
      | ok w =>
        obtain ⟨tf, s1⟩ := w
        simp only [h1]
        have hlen1 := read_mqtt_string_len h1
        rw [if_neg (by omega), wsub_small (by omega) hU]
        exact ih s1 (tps ++ [tf]) (c - (tf.length + 2)) (by omega) (by omega) (by omega)

/-- C2 (amended): on any bounded view (at most the declared remaining
length long, as `take(len)` guarantees), the Subscribe and Unsubscribe
body decoders behave exactly like their guarded counterparts that check
the counter before subtracting: every decrement equals the bytes the
iteration actually consumed, which the view caps at the counter's
budget, so the running counter never underflows and never wraps. -/
theorem claim2_loops_never_underflow :
    ∀ (header : Header) (view : List Nat), view.length ≤ header.len → header.len < USIZE →
      read_subscribe header view = read_subscribe_guarded header view ∧
      read_unsubscribe header view = read_unsubscribe_guarded header view := by
  intro header view hv hU
  constructor
  · cases h16 : readU16 view with
    | error e =>
      simp only [read_subscribe, read_subscribe_guarded, h16, bind_err_local]
    | ok u =>
      obtain ⟨pid, s⟩ := u
      obtain ⟨a, b, hview, -⟩ := readU16_ok h16
      have hvl : view.length = s.length + 2 := by rw [hview]; rfl
      have hlen2 : 2 ≤ header.len := by omega
      simp only [read_subscribe, read_subscribe_guarded, h16, bind_ok_local,
        if_neg (by omega : ¬ header.len < 2)]
      rw [wsub_small hlen2 hU]
      rw [subLoop_guard_agrees s.length s [] (header.len - 2) (le_refl _) (by omega) (by omega)]
  · cases h16 : readU16 view with
    | error e =>
      simp only [read_unsubscribe, read_unsubscribe_guarded, h16, bind_err_local]
    | ok u =>
      obtain ⟨pid, s⟩ := u
      obtain ⟨a, b, hview, -⟩ := readU16_ok h16
      have hvl : view.length = s.length + 2 := by rw [hview]; rfl
      have hlen2 : 2 ≤ header.len := by omega
      simp only [read_unsubscribe, read_unsubscribe_guarded, h16, bind_ok_local,
        if_neg (by omega : ¬ header.len < 2)]
      rw [wsub_small hlen2 hU]
      rw [unsubLoop_guard_agrees s.length s [] (header.len - 2) (le_refl _) (by omega) (by omega)]

/-- C2 counterexample: an UNSUBSCRIBE whose single topic filter declares
5 content bytes while the counter (remaining length 6 minus 2) is only
4: the claim says the decoder must fail cleanly with an error, but the
decode succeeds, returning the silently truncated filter [0x61, 0x62]. -/
theorem claim2_counterexample_unsubscribe_truncated_ok :
    read_packet [0xA2, 0x06, 0x00, 0x01, 0x00, 0x05, 0x61, 0x62] =
      .ok (.Unsubscribe { pid := 1, topics := [[0x61, 0x62]] }, []) := by
  have hs1 : read_mqtt_string [0x00, 0x05, 0x61, 0x62] = .ok ([0x61, 0x62], []) := by decide
  have hw2 : wsub 4 (List.length [0x61, 0x62] + 2) = 0 := by decide
  have hloop : unsubLoop [] 4 [0x00, 0x05, 0x61, 0x62] = .ok ([[0x61, 0x62]], []) := by
    rw [unsubLoop_eq, if_neg (by norm_num)]
    simp only [hs1, hw2, List.nil_append]
    rw [unsubLoop_eq, if_pos rfl]
  have hw : wsub 6 2 = 4 := by decide
  have huns : read_unsubscribe ⟨0xA2, .Unsubscribe, 6⟩ [0x00, 0x01, 0x00, 0x05, 0x61, 0x62] =
      .ok ({ pid := 1, topics := [[0x61, 0x62]] }, []) := by
    simp only [read_unsubscribe, readU16, bind_ok_local, hw, hloop, pure_def_local]
  have hrem : read_remaining_length [0x06, 0x00, 0x01, 0x00, 0x05, 0x61, 0x62] =
      .ok (6, [0x00, 0x01, 0x00, 0x05, 0x61, 0x62]) := by decide
  have hdr : Header.new 0xA2 6 = .ok ⟨0xA2, .Unsubscribe, 6⟩ := by decide
  have htake : List.take 6 [0x00, 0x01, 0x00, 0x05, 0x61, 0x62] =
      [0x00, 0x01, 0x00, 0x05, 0x61, 0x62] := by decide
  simp only [read_packet, readU8, hrem, hdr, if_neg (by norm_num : ¬ (6 : Nat) = 0),
    htake, huns]
  norm_num

/-- C2 witness: the guarded and raw decoders agree on a concrete
well-formed UNSUBSCRIBE view. -/
theorem claim2_witness :
    read_subscribe ⟨0x82, .Subscribe, 6⟩ [0x00, 0x01, 0x00, 0x01, 0x61, 0x00] =
      read_subscribe_guarded ⟨0x82, .Subscribe, 6⟩ [0x00, 0x01, 0x00, 0x01, 0x61, 0x00] ∧
    read_unsubscribe ⟨0x82, .Subscribe, 6⟩ [0x00, 0x01, 0x00, 0x01, 0x61, 0x00] =
      read_unsubscribe_guarded ⟨0x82, .Subscribe, 6⟩ [0x00, 0x01, 0x00, 0x01, 0x61, 0x00] :=
  claim2_loops_never_underflow ⟨0x82, .Subscribe, 6⟩ [0x00, 0x01, 0x00, 0x01, 0x61, 0x00]
    (by decide) (by decide)

/-- C8 (amended): on a bounded view of at most the declared remaining
length, a successful Subscribe or Unsubscribe decode consumed exactly
the declared remaining length (the view holds exactly that many bytes
and is left empty), and a successful Publish decode consumed the whole
view; a successful Connect decode, by contrast, may consume less than
the declared remaining length (see the counterexample), leaving the
source after its last field rather than after the declared body. -/
theorem claim8_exact_consumption :
    ∀ (header : Header) (view : List Nat), view.length ≤ header.len → header.len < USIZE →
      ((∀ sb v, read_subscribe header view = .ok (sb, v) → view.length = header.len ∧ v = []) ∧
       (∀ u v, read_unsubscribe header view = .ok (u, v) → view.length = header.len ∧ v = []) ∧
       (∀ pb v, read_publish header view = .ok (pb, v) → v = [])) := by
  intro header view hv hU
  refine ⟨?_, ?_, fun pb v hok => read_publish_rest_nil hok⟩
  · intro sb v hok
    cases h16 : readU16 view with
    | error e =>
      simp only [read_subscribe, h16, bind_err_local] at hok
      exact Except.noConfusion hok
    | ok u =>
      obtain ⟨pid, s⟩ := u
      obtain ⟨a, b, hview, -⟩ := readU16_ok h16
      have hvl : view.length = s.length + 2 := by rw [hview]; rfl
      have hlen2 : 2 ≤ header.len := by omega
      simp only [read_subscribe, h16, bind_ok_local] at hok
      rw [wsub_small hlen2 hU] at hok
      cases hl : subLoop [] (header.len - 2) s with
      | error e =>
        rw [hl] at hok
        simp only [bind_err_local] at hok
        exact Except.noConfusion hok
      | ok w =>
        obtain ⟨ts, r⟩ := w
        rw [hl] at hok
        simp only [bind_ok_local, pure_def_local, Except.ok.injEq, Prod.mk.injEq] at hok
        have hex := subLoop_exact s.length s [] (header.len - 2) ts r (le_refl _)
          (by omega) (by omega) hl
        exact ⟨by omega, hok.2 ▸ hex.2⟩
  · intro un v hok
    cases h16 : readU16 view with
    | error e =>
      simp only [read_unsubscribe, h16, bind_err_local] at hok
      exact Except.noConfusion hok
    | ok u =>
      obtain ⟨pid, s⟩ := u
      obtain ⟨a, b, hview, -⟩ := readU16_ok h16
      have hvl : view.length = s.length + 2 := by rw [hview]; rfl
      have hlen2 : 2 ≤ header.len := by omega
      simp only [read_unsubscribe, h16, bind_ok_local] at hok
      rw [wsub_small hlen2 hU] at hok
      cases hl : unsubLoop [] (header.len - 2) s with
      | error e =>
        rw [hl] at hok
        simp only [bind_err_local] at hok
        exact Except.noConfusion hok
      | ok w =>
        obtain ⟨ts, r⟩ := w
        rw [hl] at hok
        simp only [bind_ok_local, pure_def_local, Except.ok.injEq, Prod.mk.injEq] at hok
        have hex := unsubLoop_exact s.length s [] (header.len - 2) ts r (le_refl _)
          (by omega) (by omega) hl
        exact ⟨by omega, hok.2 ▸ hex.2⟩

/-- C8 counterexample: a CONNECT packet with declared remaining length
40 whose fields occupy only 39 bytes decodes successfully but leaves the
40th body byte unconsumed in the source, so the body decoder did not
consume exactly the declared remaining length. -/
theorem claim8_counterexample_connect_slack :
    read_packet ([0x10, 40, 0x00, 0x04] ++ ascii "MQTT" ++
        [0x04, 0b11001110, 0x00, 0x0a, 0x00, 0x04] ++ ascii "test" ++
        [0x00, 0x02] ++ ascii "/a" ++ [0x00, 0x07] ++ ascii "offline" ++
        [0x00, 0x04] ++ ascii "rust" ++ [0x00, 0x02] ++ ascii "mq" ++ [0x00]) =
      .ok (.Connect { protocol := .MQTT 4, keep_alive := 10, client_id := ascii "test",
                      clean_session := true,
                      last_will := some { topic := ascii "/a", message := ascii "offline",
                                          qos := .AtLeastOnce, retain := false },
                      username := some (ascii "rust"), password := some (ascii "mq") },
           [0x00]) ∧
    ([0x00] : List Nat) ≠ [] := by
  decide

/-- C8 witness: a concrete well-formed UNSUBSCRIBE body of declared
length 5 whose view holds exactly 5 bytes is fully consumed. -/
theorem claim8_witness :
    ([0x00, 0x01, 0x00, 0x01, 0x61] : List Nat).length = (5 : Nat) ∧ ([] : List Nat) = [] := by
  have hs1 : read_mqtt_string [0x00, 0x01, 0x61] = .ok ([0x61], []) := by decide
  have hw2 : wsub 3 (List.length [0x61] + 2) = 0 := by decide
  have hloop : unsubLoop [] 3 [0x00, 0x01, 0x61] = .ok ([[0x61]], []) := by
    rw [unsubLoop_eq, if_neg (by norm_num)]
    simp only [hs1, hw2, List.nil_append]
    rw [unsubLoop_eq, if_pos rfl]
  have hw : wsub 5 2 = 3 := by decide
  have huns : read_unsubscribe ⟨0xA2, .Unsubscribe, 5⟩ [0x00, 0x01, 0x00, 0x01, 0x61] =
      .ok ({ pid := 1, topics := [[0x61]] }, []) := by
    simp only [read_unsubscribe, readU16, bind_ok_local, hw, hloop, pure_def_local]
  exact (claim8_exact_consumption ⟨0xA2, .Unsubscribe, 5⟩ [0x00, 0x01, 0x00, 0x01, 0x61]
    (by decide) (by decide)).2.1 { pid := 1, topics := [[0x61]] } [] huns

end Mq
